import Mathlib

/-!
Verification development for the compass screen: a shallow embedding of the
heading math (`clampHeadingDegrees`, `shortestDeltaDegrees`,
`headingFromMagnetometer`, `cardinalFromHeading`), the per-sample listener
updates of the two observed component variants, and the mount/probe/unmount
lifecycle of the sensor subscription, together with theorems checking the
specification's claims against these definitions.

JavaScript numbers are modelled as elements of a linear ordered field with a
floor function (instantiated at `ℚ` for executable checks and at `ℝ` where the
source uses `atan2`/`sqrt`); the JavaScript remainder operator `%` is the
truncated-division remainder `jsMod`.
-/

set_option linter.unusedSectionVars false

namespace Compass

variable {K : Type*} [LinearOrderedField K] [FloorRing K]

/-- JavaScript truncation toward zero (the integer part used by the JS `%`
operator), as an integer. -/
def jsTrunc (x : K) : ℤ := if 0 ≤ x then ⌊x⌋ else ⌈x⌉

/-- The JavaScript remainder operator `x % y` on numbers: the remainder of
truncated division, so the result has the sign of the dividend `x`. -/
def jsMod (x y : K) : K := x - y * jsTrunc (x / y)

/-- Embedding of `clampHeadingDegrees` from the source:
`const v = deg % 360; return v < 0 ? v + 360 : v`. -/
def clampHeadingDegrees (deg : K) : K :=
  let v := jsMod deg 360
  if v < 0 then v + 360 else v

/-- Embedding of `shortestDeltaDegrees` from the source:
clamp both endpoints, then `((b - a + 540) % 360) - 180`. -/
def shortestDeltaDegrees (fromDeg toDeg : K) : K :=
  jsMod (clampHeadingDegrees toDeg - clampHeadingDegrees fromDeg + 540) 360 - 180

/-- On nonnegative input the JS remainder by 360 lands in `[0, 360)`. -/
theorem jsMod_nonneg_mem (x : K) (hx : 0 ≤ x) :
    0 ≤ jsMod x 360 ∧ jsMod x 360 < 360 := by
  have h360 : (0:K) < 360 := by norm_num
  have hq : 0 ≤ x / 360 := div_nonneg hx h360.le
  have ht : jsTrunc (x / 360) = ⌊x / 360⌋ := if_pos hq
  have h1 : ((⌊x / 360⌋ : K)) ≤ x / 360 := Int.floor_le _
  have h2 : x / 360 < (⌊x / 360⌋ : K) + 1 := Int.lt_floor_add_one _
  have hxeq : x / 360 * 360 = x := div_mul_cancel₀ x (by norm_num)
  unfold jsMod
  rw [ht]
  constructor <;> nlinarith [h1, h2, hxeq]

/-- On negative input the JS remainder by 360 lands in `(-360, 0]`. -/
theorem jsMod_neg_mem (x : K) (hx : x < 0) :
    -360 < jsMod x 360 ∧ jsMod x 360 ≤ 0 := by
  have hq : ¬ (0 ≤ x / 360) := by
    rw [not_le]
    exact div_neg_of_neg_of_pos hx (by norm_num)
  have ht : jsTrunc (x / 360) = ⌈x / 360⌉ := if_neg hq
  have h1 : x / 360 ≤ ((⌈x / 360⌉ : K)) := Int.le_ceil _
  have h2 : ((⌈x / 360⌉ : K)) < x / 360 + 1 := Int.ceil_lt_add_one _
  have hxeq : x / 360 * 360 = x := div_mul_cancel₀ x (by norm_num)
  unfold jsMod
  rw [ht]
  constructor <;> nlinarith [h1, h2, hxeq]

/-- The JS remainder by 360 always differs from its argument by an integer
multiple of 360. -/
theorem jsMod_sub_self (x : K) : ∃ z : ℤ, jsMod x 360 - x = 360 * z := by
  refine ⟨-jsTrunc (x / 360), ?_⟩
  unfold jsMod
  push_cast
  ring

/-- The clamped heading always lies in `[0, 360)`. -/
theorem clamp_mem (x : K) :
    0 ≤ clampHeadingDegrees x ∧ clampHeadingDegrees x < 360 := by
  unfold clampHeadingDegrees
  rcases le_or_lt 0 x with hx | hx
  · have h := jsMod_nonneg_mem x hx
    rw [if_neg (not_lt.mpr h.1)]
    exact h
  · have h := jsMod_neg_mem x hx
    by_cases hv : jsMod x 360 < 0
    · rw [if_pos hv]
      constructor <;> linarith [h.1, h.2]
    · rw [if_neg hv]
      constructor <;> [exact not_lt.mp hv; linarith [h.2]]

/-- Clamping changes an angle by an integer multiple of 360. -/
theorem clamp_sub_self (x : K) :
    ∃ z : ℤ, clampHeadingDegrees x - x = 360 * z := by
  obtain ⟨z, hz⟩ := jsMod_sub_self x
  unfold clampHeadingDegrees
  by_cases hv : jsMod x 360 < 0
  · refine ⟨z + 1, ?_⟩
    rw [if_pos hv]
    push_cast
    linarith [hz]
  · exact ⟨z, by rw [if_neg hv]; exact hz⟩

/-- Two values of `[0, 360)` that differ by an integer multiple of 360 are
equal. -/
theorem mod360_unique {r r' : K} (h1 : 0 ≤ r) (h2 : r < 360) (h3 : 0 ≤ r')
    (h4 : r' < 360) (h : ∃ z : ℤ, r - r' = 360 * z) : r = r' := by
  obtain ⟨z, hz⟩ := h
  have hlt : (z : K) < 1 := by nlinarith
  have hgt : (-1 : K) < (z : K) := by nlinarith
  have hz1 : z < 1 := by exact_mod_cast hlt
  have hz2 : -1 < z := by exact_mod_cast hgt
  have : z = 0 := by omega
  rw [this] at hz
  push_cast at hz
  linarith

/-- Two angles have the same clamped value exactly when they differ by an
integer multiple of 360. -/
theorem clamp_eq_clamp_iff (a b : K) :
    clampHeadingDegrees a = clampHeadingDegrees b ↔ ∃ z : ℤ, a - b = 360 * z := by
  constructor
  · intro h
    obtain ⟨za, hza⟩ := clamp_sub_self a
    obtain ⟨zb, hzb⟩ := clamp_sub_self b
    refine ⟨zb - za, ?_⟩
    push_cast
    have : clampHeadingDegrees a - clampHeadingDegrees b = 0 := by rw [h]; ring
    linarith [hza, hzb]
  · intro ⟨z, hz⟩
    obtain ⟨za, hza⟩ := clamp_sub_self a
    obtain ⟨zb, hzb⟩ := clamp_sub_self b
    refine mod360_unique (clamp_mem a).1 (clamp_mem a).2 (clamp_mem b).1
      (clamp_mem b).2 ⟨za + z - zb, ?_⟩
    push_cast
    linarith [hza, hzb, hz]

/-- Clamping fixes values already in `[0, 360)`. -/
theorem clamp_eq_self {x : K} (h1 : 0 ≤ x) (h2 : x < 360) :
    clampHeadingDegrees x = x := by
  obtain ⟨z, hz⟩ := clamp_sub_self x
  exact mod360_unique (clamp_mem x).1 (clamp_mem x).2 h1 h2 ⟨z, hz⟩

/-- Clamping is idempotent. -/
theorem clamp_clamp (x : K) :
    clampHeadingDegrees (clampHeadingDegrees x) = clampHeadingDegrees x :=
  clamp_eq_self (clamp_mem x).1 (clamp_mem x).2

/-- Clamping is invariant under shifts by integer multiples of 360. -/
theorem clamp_add_int_mul (x : K) (k : ℤ) :
    clampHeadingDegrees (x + 360 * k) = clampHeadingDegrees x :=
  (clamp_eq_clamp_iff _ _).2 ⟨k, by ring⟩

/-- Pre-clamping the base of a sum does not change the clamped result. -/
theorem clamp_clamp_add (x c : K) :
    clampHeadingDegrees (clampHeadingDegrees x + c) = clampHeadingDegrees (x + c) := by
  obtain ⟨z, hz⟩ := clamp_sub_self x
  exact (clamp_eq_clamp_iff _ _).2 ⟨z, by linarith [hz]⟩

/-- The shortest delta ignores clamping of its first argument. -/
theorem shortestDelta_clamp_left (a b : K) :
    shortestDeltaDegrees (clampHeadingDegrees a) b = shortestDeltaDegrees a b := by
  unfold shortestDeltaDegrees
  rw [clamp_clamp]

/-- The shortest delta always lies in the half-open interval `[-180, 180)`. -/
theorem shortestDelta_mem (a b : K) :
    -180 ≤ shortestDeltaDegrees a b ∧ shortestDeltaDegrees a b < 180 := by
  unfold shortestDeltaDegrees
  have ha := clamp_mem (K := K) a
  have hb := clamp_mem (K := K) b
  have hw : (0:K) ≤ clampHeadingDegrees b - clampHeadingDegrees a + 540 := by
    linarith [ha.2, hb.1]
  have h := jsMod_nonneg_mem (clampHeadingDegrees b - clampHeadingDegrees a + 540) hw
  constructor <;> linarith [h.1, h.2]

/-- Adding the shortest delta to the start angle lands on the target heading
modulo 360. -/
theorem clamp_add_shortestDelta (a b : K) :
    clampHeadingDegrees (a + shortestDeltaDegrees a b) = clampHeadingDegrees b := by
  obtain ⟨za, hza⟩ := clamp_sub_self a
  obtain ⟨zb, hzb⟩ := clamp_sub_self b
  obtain ⟨zm, hzm⟩ :=
    jsMod_sub_self (clampHeadingDegrees b - clampHeadingDegrees a + 540)
  refine (clamp_eq_clamp_iff _ _).2 ⟨zm - za + zb + 1, ?_⟩
  unfold shortestDeltaDegrees
  push_cast
  linarith [hza, hzb, hzm]

/-- When two angles already agree modulo 360 the shortest delta is zero. -/
theorem shortestDelta_eq_zero {a b : K}
    (h : clampHeadingDegrees a = clampHeadingDegrees b) :
    shortestDeltaDegrees a b = 0 := by
  unfold shortestDeltaDegrees
  rw [h, sub_self, zero_add]
  have h1 : jsTrunc ((540 : K) / 360) = 1 := by
    have hq : (0:K) ≤ (540 : K) / 360 := by norm_num
    rw [jsTrunc, if_pos hq, Int.floor_eq_iff]
    constructor <;> norm_num
  unfold jsMod
  rw [h1]
  norm_num

/-- Among all rotations landing on the target heading, the shortest delta has
the least magnitude. -/
theorem shortestDelta_min (a b e : K)
    (h : clampHeadingDegrees (a + e) = clampHeadingDegrees b) :
    |shortestDeltaDegrees a b| ≤ |e| := by
  have hd := clamp_add_shortestDelta a b
  have hmem := shortestDelta_mem a b
  obtain ⟨z, hz⟩ := (clamp_eq_clamp_iff (a + e) (a + shortestDeltaDegrees a b)).1
    (h.trans hd.symm)
  have habs : |shortestDeltaDegrees a b| ≤ 180 :=
    abs_le.mpr ⟨hmem.1, hmem.2.le⟩
  rcases lt_trichotomy z 0 with hzs | hzs | hzs
  · have hz1 : z ≤ -1 := by omega
    have hz1K : (z : K) ≤ -1 := by exact_mod_cast hz1
    have he : e ≤ shortestDeltaDegrees a b - 360 := by nlinarith
    have : (180 : K) ≤ -e := by linarith [hmem.2]
    calc |shortestDeltaDegrees a b| ≤ 180 := habs
      _ ≤ -e := this
      _ ≤ |e| := neg_le_abs e
  · have : e = shortestDeltaDegrees a b := by
      rw [hzs] at hz
      push_cast at hz
      linarith
    rw [this]
  · have hz1 : 1 ≤ z := by omega
    have hz1K : (1 : K) ≤ (z : K) := by exact_mod_cast hz1
    have he : shortestDeltaDegrees a b + 360 ≤ e := by nlinarith
    have : (180 : K) ≤ e := by linarith [hmem.1]
    calc |shortestDeltaDegrees a b| ≤ 180 := habs
      _ ≤ e := this
      _ ≤ |e| := le_abs_self e

/-- The ordered cardinal label list `headings` from the source. -/
def headings : List String := ["N", "NE", "E", "SE", "S", "SW", "W", "NW"]

/-- Embedding of `cardinalFromHeading` from the source:
`headings[Math.round(clampHeadingDegrees(deg) / 45) % 8]`.  JavaScript
`Math.round` rounds half-way cases up, exactly as Mathlib's `round`. -/
def cardinalFromHeading (deg : K) : String :=
  headings.getD (round (clampHeadingDegrees deg / 45) % 8).toNat "N"

/-- Embedding of the variant-1 listener rotation update:
`next = current + shortestDeltaDegrees(current, h)` with `current` the raw
(unwrapped) animated rotation value. -/
def nextRotationV1 (current h : K) : K :=
  current + shortestDeltaDegrees current h

/-- Embedding of the variant-2 listener rotation update:
`current = rotationDeg.value % 360; next = current + shortestDeltaDegrees(current, h)`. -/
def nextRotationV2 (rotation h : K) : K :=
  let current := jsMod rotation 360
  current + shortestDeltaDegrees current h

/-- Evaluation helper: the clamped value is the unique element of `[0, 360)`
congruent to the input. -/
theorem clamp_eval {x r : K} (k : ℤ) (h0 : 0 ≤ r) (h1 : r < 360)
    (heq : x - r = 360 * k) : clampHeadingDegrees x = r := by
  have h := (clamp_eq_clamp_iff x r).2 ⟨k, heq⟩
  rw [h, clamp_eq_self h0 h1]

/-- Evaluation helper: the shortest delta is the unique element of
`[-180, 180)` congruent to `b - a` modulo 360. -/
theorem shortestDelta_eval {a b d : K} (k : ℤ) (h0 : -180 ≤ d) (h1 : d < 180)
    (heq : b - a - d = 360 * k) : shortestDeltaDegrees a b = d := by
  have hmem := shortestDelta_mem a b
  obtain ⟨z, hz⟩ := (clamp_eq_clamp_iff (a + shortestDeltaDegrees a b) b).1
    (clamp_add_shortestDelta a b)
  have key : shortestDeltaDegrees a b + 180 = d + 180 := by
    refine mod360_unique (by linarith [hmem.1]) (by linarith [hmem.2])
      (by linarith) (by linarith) ⟨z + k, ?_⟩
    push_cast
    linarith [hz, heq]
  linarith [key]

/-- On nonnegative input, the JS remainder by 360 agrees with clamping. -/
theorem jsMod_eq_clamp_of_nonneg {x : K} (hx : 0 ≤ x) :
    jsMod x 360 = clampHeadingDegrees x := by
  have h := jsMod_nonneg_mem x hx
  obtain ⟨z, hz⟩ := jsMod_sub_self x
  obtain ⟨z', hz'⟩ := clamp_sub_self x
  exact mod360_unique h.1 h.2 (clamp_mem x).1 (clamp_mem x).2
    ⟨z - z', by push_cast; linarith [hz, hz']⟩

/-- Evaluation helper for the cardinal label: once the rounded bucket index is
known, the label is a list lookup. -/
theorem cardinal_eval {d : K} {n : ℤ}
    (h : round (clampHeadingDegrees d / 45) = n) :
    cardinalFromHeading d = headings.getD (n % 8).toNat "N" := by
  rw [cardinalFromHeading, h]

/-- Every heading whose distance to a multiple of 360 is in `[-22.5, 22.5)`
maps to the label N. -/
theorem cardinal_N_of_band {d : K} (k : ℤ) (h1 : -(45 / 2) ≤ d - 360 * k)
    (h2 : d - 360 * k < 45 / 2) : cardinalFromHeading d = "N" := by
  have hshift : clampHeadingDegrees d = clampHeadingDegrees (d - 360 * k) :=
    (clamp_eq_clamp_iff _ _).2 ⟨k, by ring⟩
  rcases le_or_lt 0 (d - 360 * k) with hr | hr
  · have hclamp : clampHeadingDegrees d = d - 360 * k := by
      rw [hshift]
      exact clamp_eq_self hr (by linarith)
    have hdiv0 : (0:K) ≤ (d - 360 * k) / 45 + 1 / 2 := by positivity
    have hdiv1 : (d - 360 * k) / 45 + 1 / 2 < 1 := by
      have : (d - 360 * k) / 45 < 1 / 2 := by
        rw [div_lt_iff₀ (by norm_num : (0:K) < 45)]
        linarith
      linarith
    have hround : round (clampHeadingDegrees d / 45) = 0 := by
      rw [hclamp, round_eq, Int.floor_eq_iff]
      push_cast
      exact ⟨hdiv0, by linarith [hdiv1]⟩
    rw [cardinal_eval hround]
    rfl
  · have hclamp : clampHeadingDegrees d = d - 360 * k + 360 := by
      have hs : clampHeadingDegrees (d - 360 * k) =
          clampHeadingDegrees (d - 360 * k + 360) := by
        have : d - 360 * k + 360 = d - 360 * k + 360 * ((1:ℤ):K) := by push_cast; ring
        rw [this, clamp_add_int_mul]
      rw [hshift, hs]
      exact clamp_eq_self (by linarith) (by linarith)
    have hdiv0 : (8:K) ≤ (d - 360 * k + 360) / 45 + 1 / 2 := by
      have : (15:K) / 2 ≤ (d - 360 * k + 360) / 45 := by
        rw [le_div_iff₀ (by norm_num : (0:K) < 45)]
        linarith
      linarith
    have hdiv1 : (d - 360 * k + 360) / 45 + 1 / 2 < 9 := by
      have : (d - 360 * k + 360) / 45 < 8 := by
        rw [div_lt_iff₀ (by norm_num : (0:K) < 45)]
        linarith
      linarith
    have hround : round (clampHeadingDegrees d / 45) = 8 := by
      rw [hclamp, round_eq, Int.floor_eq_iff]
      push_cast
      exact ⟨hdiv0, by linarith [hdiv1]⟩
    rw [cardinal_eval hround]
    rfl

/-- The cardinal label is periodic with period 360. -/
theorem cardinal_periodic (d : K) :
    cardinalFromHeading (d + 360) = cardinalFromHeading d := by
  have : d + 360 = d + 360 * ((1:ℤ):K) := by push_cast; ring
  rw [cardinalFromHeading, this, clamp_add_int_mul]
  rfl

/-- Rounding helper for concrete integer-valued arguments. -/
theorem round_intVal {x : K} {n : ℤ} (h1 : (n:K) ≤ x + 1 / 2)
    (h2 : x + 1 / 2 < n + 1) : round x = n := by
  rw [round_eq, Int.floor_eq_iff]
  exact ⟨h1, by linarith [h2]⟩

/-- C7: for every real input `d`, including negative values and values beyond
720, `clampHeadingDegrees d` lies in `[0, 360)`, and the code's formula agrees
with the specification's formula `((d mod 360) + 360) mod 360`. -/
theorem C7_normalize_range_and_formula (d : ℝ) :
    (0 ≤ clampHeadingDegrees d ∧ clampHeadingDegrees d < 360) ∧
      clampHeadingDegrees d = jsMod (jsMod d 360 + 360) 360 := by
  refine ⟨clamp_mem d, ?_⟩
  have hu : -360 < jsMod d 360 ∧ jsMod d 360 < 360 := by
    rcases le_or_lt 0 d with hd | hd
    · have h := jsMod_nonneg_mem d hd
      exact ⟨by linarith [h.1], h.2⟩
    · have h := jsMod_neg_mem d hd
      exact ⟨h.1, by linarith [h.2]⟩
  have hpos : (0:ℝ) ≤ jsMod d 360 + 360 := by linarith [hu.1]
  have hr := jsMod_nonneg_mem (jsMod d 360 + 360) hpos
  obtain ⟨z1, hz1⟩ := clamp_sub_self d
  obtain ⟨z2, hz2⟩ := jsMod_sub_self d
  obtain ⟨z3, hz3⟩ := jsMod_sub_self (jsMod d 360 + 360)
  exact mod360_unique (clamp_mem d).1 (clamp_mem d).2 hr.1 hr.2
    ⟨z1 - z2 - z3 - 1, by push_cast; linarith [hz1, hz2, hz3]⟩

/-- C6: adding the shortest delta to the starting angle always lands on the
target heading modulo 360. -/
theorem C6_add_delta_lands_on_target (a b : ℝ) :
    clampHeadingDegrees (a + shortestDeltaDegrees a b) = clampHeadingDegrees b :=
  clamp_add_shortestDelta a b

/-- C1 counterexample: at the antipodal pair `a = 0`, `b = 180` the code
returns exactly `-180`, which is not in the claimed half-open interval
`(-180, 180]`. -/
theorem C1_interval_claim_false :
    shortestDeltaDegrees (0:ℝ) 180 = -180 ∧
      ¬(-180 < shortestDeltaDegrees (0:ℝ) 180 ∧
        shortestDeltaDegrees (0:ℝ) 180 ≤ 180) := by
  have h : shortestDeltaDegrees (0:ℝ) 180 = -180 :=
    shortestDelta_eval 1 (by norm_num) (by norm_num) (by norm_num)
  exact ⟨h, by rw [h]; norm_num⟩

/-- C1 amended: `shortestDeltaDegrees a b` lies in the half-open interval
`[-180, 180)` (closed at `-180`, open at `180`), it is a minimal signed
rotation from `a` to `b`, and `shortestDeltaDegrees 10 350 = -20`. -/
theorem C1_delta_range_minimal :
    (∀ a b : ℝ, (-180 ≤ shortestDeltaDegrees a b ∧ shortestDeltaDegrees a b < 180) ∧
      ∀ e : ℝ, clampHeadingDegrees (a + e) = clampHeadingDegrees b →
        |shortestDeltaDegrees a b| ≤ |e|) ∧
    shortestDeltaDegrees (10:ℝ) 350 = -20 := by
  refine ⟨fun a b => ⟨shortestDelta_mem a b, fun e he => shortestDelta_min a b e he⟩, ?_⟩
  exact shortestDelta_eval 1 (by norm_num) (by norm_num) (by norm_num)

/-- C1 witness: at `a = 20`, `b = 70`, the rotation `e = 50` lands on the
target, and the shortest delta is no larger than it in magnitude. -/
theorem C1_delta_range_minimal_witness :
    clampHeadingDegrees ((20:ℝ) + 50) = clampHeadingDegrees 70 ∧
      |shortestDeltaDegrees (20:ℝ) 70| ≤ |(50:ℝ)| :=
  ⟨by norm_num, (C1_delta_range_minimal.1 20 70).2 50 (by norm_num)⟩

/-- C4 counterexample: the heading `22.5` is within `22.5°` of `0`, yet the
code maps it to NE (JavaScript `Math.round` sends the half-way bucket
boundary up), not to N. -/
theorem C4_band_claim_false :
    |(45:ℝ)/2 - 0| ≤ 45/2 ∧ cardinalFromHeading ((45:ℝ)/2) = "NE" ∧
      cardinalFromHeading ((45:ℝ)/2) ≠ "N" := by
  have hclamp : clampHeadingDegrees ((45:ℝ)/2) = 45/2 :=
    clamp_eq_self (by norm_num) (by norm_num)
  have hround : round (clampHeadingDegrees ((45:ℝ)/2) / 45) = 1 := by
    rw [hclamp]
    exact round_intVal (by norm_num) (by norm_num)
  have h : cardinalFromHeading ((45:ℝ)/2) = "NE" := by
    rw [cardinal_eval hround]
    rfl
  exact ⟨by rw [sub_zero, abs_of_nonneg (by norm_num : (0:ℝ) ≤ 45/2)], h, by rw [h]; decide⟩

/-- C4 amended: `cardinalFromHeading` is periodic with period 360; every
heading whose representative modulo 360 lies in `[-22.5, 22.5)` (within 22.5°
of 0, excluding the upper boundary `+22.5` itself) maps to N; and 90, 180,
270 map to E, S, W. -/
theorem C4_cardinal_buckets :
    (∀ d : ℝ, cardinalFromHeading (d + 360) = cardinalFromHeading d) ∧
    (∀ d : ℝ, (∃ k : ℤ, -(45/2) ≤ d - 360 * k ∧ d - 360 * k < 45/2) →
      cardinalFromHeading d = "N") ∧
    cardinalFromHeading (90:ℝ) = "E" ∧
    cardinalFromHeading (180:ℝ) = "S" ∧
    cardinalFromHeading (270:ℝ) = "W" := by
  refine ⟨cardinal_periodic, fun d ⟨k, h1, h2⟩ => cardinal_N_of_band k h1 h2, ?_, ?_, ?_⟩
  · have hround : round (clampHeadingDegrees (90:ℝ) / 45) = 2 := by
      rw [clamp_eq_self (by norm_num : (0:ℝ) ≤ 90) (by norm_num)]
      exact round_intVal (by norm_num) (by norm_num)
    rw [cardinal_eval hround]
    rfl
  · have hround : round (clampHeadingDegrees (180:ℝ) / 45) = 4 := by
      rw [clamp_eq_self (by norm_num : (0:ℝ) ≤ 180) (by norm_num)]
      exact round_intVal (by norm_num) (by norm_num)
    rw [cardinal_eval hround]
    rfl
  · have hround : round (clampHeadingDegrees (270:ℝ) / 45) = 6 := by
      rw [clamp_eq_self (by norm_num : (0:ℝ) ≤ 270) (by norm_num)]
      exact round_intVal (by norm_num) (by norm_num)
    rw [cardinal_eval hround]
    rfl

/-- C4 witness: the heading `350` is within 22.5° of a multiple of 360 and is
mapped to N. -/
theorem C4_cardinal_buckets_witness :
    (∃ k : ℤ, -(45/2) ≤ (350:ℝ) - 360 * k ∧ (350:ℝ) - 360 * k < 45/2) ∧
      cardinalFromHeading (350:ℝ) = "N" :=
  ⟨⟨1, by norm_num⟩, C4_cardinal_buckets.2.1 350 ⟨1, by norm_num⟩⟩

/-- C3 counterexample: in variant 2, with previous rotation `400` and heading
`50`, the code first wraps `400` to `40` and produces target `50`, while the
claim's formula (previous unwrapped rotation plus the shortest delta from the
wrapped rotation) gives `410`. -/
theorem C3_unwrapped_claim_false :
    nextRotationV2 (400:ℝ) 50 = 50 ∧
      (400:ℝ) + shortestDeltaDegrees (clampHeadingDegrees (400:ℝ)) 50 = 410 ∧
      (50:ℝ) ≠ 410 := by
  have hmod : jsMod (400:ℝ) 360 = 40 := by
    rw [jsMod_eq_clamp_of_nonneg (by norm_num : (0:ℝ) ≤ 400)]
    exact clamp_eval 1 (by norm_num) (by norm_num) (by norm_num)
  have hclamp : clampHeadingDegrees (400:ℝ) = 40 :=
    clamp_eval 1 (by norm_num) (by norm_num) (by norm_num)
  have hdelta : shortestDeltaDegrees (40:ℝ) 50 = 10 :=
    shortestDelta_eval 0 (by norm_num) (by norm_num) (by norm_num)
  refine ⟨?_, ?_, by norm_num⟩
  · rw [nextRotationV2, hmod, hdelta]
    norm_num
  · rw [hclamp, hdelta]
    norm_num

/-- C3 amended: in variant 1 the new rotation target is the previous unwrapped
rotation plus the shortest delta from its wrapped value, and it can accumulate
beyond 360 or below 0; variant 2 instead wraps its previous rotation with
`% 360` before adding the delta. -/
theorem C3_rotation_target :
    (∀ r h : ℝ, nextRotationV1 r h =
      r + shortestDeltaDegrees (clampHeadingDegrees r) h) ∧
    nextRotationV1 (300:ℝ) 100 = 460 ∧
    nextRotationV1 (50:ℝ) 250 = -110 ∧
    (∀ r h : ℝ, nextRotationV2 r h =
      jsMod r 360 + shortestDeltaDegrees (jsMod r 360) h) := by
  refine ⟨fun r h => ?_, ?_, ?_, fun r h => rfl⟩
  · rw [nextRotationV1, shortestDelta_clamp_left]
  · rw [nextRotationV1,
      shortestDelta_eval (a := (300:ℝ)) (b := 100) (d := 160) (-1)
        (by norm_num) (by norm_num) (by norm_num)]
    norm_num
  · rw [nextRotationV1,
      shortestDelta_eval (a := (50:ℝ)) (b := 250) (d := -160) 1
        (by norm_num) (by norm_num) (by norm_num)]
    norm_num

/-- JavaScript atan2 with arguments in the source's order: `Math.atan2(y, x)`
is the argument of the complex number `x + y*i`, in `(-pi, pi]`, with the same
quadrant conventions. -/
noncomputable def atan2 (y x : ℝ) : ℝ := Complex.arg ((x : ℂ) + (y : ℂ) * Complex.I)

/-- Variant-1 `headingFromMagnetometer`: `atan2(y, x)` converted to degrees and
shifted by 90 before clamping. -/
noncomputable def headingFromMagnetometer (x y : ℝ) : ℝ :=
  clampHeadingDegrees (atan2 y x * 180 / Real.pi + 90)

/-- Variant-2 `headingFromMagnetometer`: `atan2(-x, y)` converted to degrees
and clamped with no offset. -/
noncomputable def headingFromMagnetometerV2 (x y : ℝ) : ℝ :=
  clampHeadingDegrees (atan2 (-x) y * 180 / Real.pi)

/-- The calibration advisory string shared by both variants. -/
def calibrationMessage : String := "Move phone in a figure‑8 to calibrate"

/-- Variant-1 calibration hint: advisory when the field magnitude
`sqrt(x*x + y*y + z*z)` is below 15 or above 80, cleared otherwise. -/
noncomputable def accuracyHintV1 (x y z : ℝ) : Option String :=
  let mag := Real.sqrt (x * x + y * y + z * z)
  if mag < 15 ∨ mag > 80 then some calibrationMessage else none

/-- Variant-2 calibration hint: advisory when the field magnitude
`sqrt(x^2 + y^2 + z^2)` is below 25 or above 65, cleared otherwise. -/
noncomputable def accuracyHintV2 (x y z : ℝ) : Option String :=
  let mag := Real.sqrt (x ^ 2 + y ^ 2 + z ^ 2)
  if mag < 25 ∨ mag > 65 then some calibrationMessage else none

/-- The complex point for variant 2 is the variant-1 point rotated by `-i`. -/
theorem variant2_point_eq (x y : ℝ) :
    (y : ℂ) + (-x : ℝ) * Complex.I = ((x : ℂ) + (y : ℂ) * Complex.I) * (-Complex.I) := by
  apply Complex.ext <;>
    simp [Complex.add_re, Complex.add_im, Complex.mul_re, Complex.mul_im]

/-- A nonzero horizontal sample gives a nonzero complex point. -/
theorem variant1_point_ne_zero {x y : ℝ} (h : (x, y) ≠ (0, 0)) :
    (x : ℂ) + (y : ℂ) * Complex.I ≠ 0 := by
  intro hz
  apply h
  have hre := congrArg Complex.re hz
  have him := congrArg Complex.im hz
  simp at hre him
  simp [hre, him]

/-- The two heading variants differ by exactly 180 degrees modulo 360. -/
theorem heading_variants_antipodal {x y : ℝ} (h : (x, y) ≠ (0, 0)) :
    headingFromMagnetometerV2 x y =
      clampHeadingDegrees (headingFromMagnetometer x y + 180) := by
  have hz1 : (x : ℂ) + (y : ℂ) * Complex.I ≠ 0 := variant1_point_ne_zero h
  have hnegI : (-Complex.I : ℂ) ≠ 0 := neg_ne_zero.mpr Complex.I_ne_zero
  have harg := Complex.arg_mul_coe_angle hz1 hnegI
  rw [Complex.arg_neg_I, ← Real.Angle.coe_add] at harg
  obtain ⟨k, hk⟩ := Real.Angle.angle_eq_iff_two_pi_dvd_sub.1 harg
  set A := Complex.arg (((x : ℂ) + (y : ℂ) * Complex.I) * (-Complex.I)) with hA
  set B := Complex.arg ((x : ℂ) + (y : ℂ) * Complex.I) with hB
  have hpi : Real.pi ≠ 0 := Real.pi_ne_zero
  have hdeg : A * 180 / Real.pi = B * 180 / Real.pi - 90 + 360 * k := by
    have hexp : A = B + -(Real.pi / 2) + 2 * Real.pi * k := by linarith [hk]
    rw [hexp]
    field_simp
    ring
  unfold headingFromMagnetometerV2 headingFromMagnetometer atan2
  rw [variant2_point_eq, ← hA, ← hB, clamp_clamp_add]
  exact (clamp_eq_clamp_iff _ _).2 ⟨k - 1, by push_cast; linarith [hdeg]⟩

/-- C5: for every horizontal input other than the origin, the two observed
heading variants diverge: variant 2 equals variant 1 plus 180 degrees modulo
360, so the two variants never return the same heading. -/
theorem C5_heading_variants_diverge (x y : ℝ) (h : (x, y) ≠ (0, 0)) :
    headingFromMagnetometerV2 x y =
      clampHeadingDegrees (headingFromMagnetometer x y + 180) ∧
    headingFromMagnetometerV2 x y ≠ headingFromMagnetometer x y := by
  have hmain := heading_variants_antipodal h
  refine ⟨hmain, ?_⟩
  intro heq
  have hv1 : clampHeadingDegrees (headingFromMagnetometer x y) =
      headingFromMagnetometer x y := by
    unfold headingFromMagnetometer
    exact clamp_clamp _
  have h2 : clampHeadingDegrees (headingFromMagnetometer x y + 180) =
      clampHeadingDegrees (headingFromMagnetometer x y) := by
    rw [← hmain, heq, hv1]
  obtain ⟨z, hz⟩ := (clamp_eq_clamp_iff _ _).1 h2
  have h180 : (180 : ℝ) = 360 * (z : ℝ) := by linarith [hz]
  have : (180 : ℤ) = 360 * z := by exact_mod_cast h180
  omega

/-- C5 witness: at the concrete sample `(x, y) = (1, 0)` the hypotheses hold
and the two variants disagree by 180 degrees. -/
theorem C5_heading_variants_diverge_witness :
    ((1:ℝ), (0:ℝ)) ≠ ((0:ℝ), (0:ℝ)) ∧
    headingFromMagnetometerV2 1 0 =
      clampHeadingDegrees (headingFromMagnetometer 1 0 + 180) ∧
    headingFromMagnetometerV2 1 0 ≠ headingFromMagnetometer 1 0 :=
  ⟨by simp, (C5_heading_variants_diverge 1 0 (by simp)).1,
    (C5_heading_variants_diverge 1 0 (by simp)).2⟩

/-- C9: with field magnitude `m = sqrt(x^2 + y^2 + z^2)`, a sample of
magnitude 10 sets the calibration hint, magnitude 40 clears it, and magnitude
90 sets it again, under both observed threshold pairs. -/
theorem C9_calibration_hint_bands (x y z : ℝ) :
    (Real.sqrt (x ^ 2 + y ^ 2 + z ^ 2) = 10 →
      accuracyHintV1 x y z = some calibrationMessage ∧
      accuracyHintV2 x y z = some calibrationMessage) ∧
    (Real.sqrt (x ^ 2 + y ^ 2 + z ^ 2) = 40 →
      accuracyHintV1 x y z = none ∧ accuracyHintV2 x y z = none) ∧
    (Real.sqrt (x ^ 2 + y ^ 2 + z ^ 2) = 90 →
      accuracyHintV1 x y z = some calibrationMessage ∧
      accuracyHintV2 x y z = some calibrationMessage) := by
  have hxx : x * x + y * y + z * z = x ^ 2 + y ^ 2 + z ^ 2 := by ring
  refine ⟨fun h => ?_, fun h => ?_, fun h => ?_⟩ <;>
    constructor <;>
      simp only [accuracyHintV1, accuracyHintV2, hxx, h] <;> norm_num

/-- C9 witness: concrete samples realizing the three magnitudes. -/
theorem C9_calibration_hint_bands_witness :
    Real.sqrt ((10:ℝ) ^ 2 + 0 ^ 2 + 0 ^ 2) = 10 ∧
    accuracyHintV1 10 0 0 = some calibrationMessage ∧
    accuracyHintV2 10 0 0 = some calibrationMessage ∧
    Real.sqrt ((40:ℝ) ^ 2 + 0 ^ 2 + 0 ^ 2) = 40 ∧
    accuracyHintV1 40 0 0 = none ∧
    accuracyHintV2 40 0 0 = none ∧
    Real.sqrt ((90:ℝ) ^ 2 + 0 ^ 2 + 0 ^ 2) = 90 ∧
    accuracyHintV1 90 0 0 = some calibrationMessage ∧
    accuracyHintV2 90 0 0 = some calibrationMessage := by
  have h10 : Real.sqrt ((10:ℝ) ^ 2 + 0 ^ 2 + 0 ^ 2) = 10 := by
    rw [show ((10:ℝ) ^ 2 + 0 ^ 2 + 0 ^ 2) = 10 ^ 2 by norm_num]
    exact Real.sqrt_sq (by norm_num)
  have h40 : Real.sqrt ((40:ℝ) ^ 2 + 0 ^ 2 + 0 ^ 2) = 40 := by
    rw [show ((40:ℝ) ^ 2 + 0 ^ 2 + 0 ^ 2) = 40 ^ 2 by norm_num]
    exact Real.sqrt_sq (by norm_num)
  have h90 : Real.sqrt ((90:ℝ) ^ 2 + 0 ^ 2 + 0 ^ 2) = 90 := by
    rw [show ((90:ℝ) ^ 2 + 0 ^ 2 + 0 ^ 2) = 90 ^ 2 by norm_num]
    exact Real.sqrt_sq (by norm_num)
  obtain ⟨a1, a2⟩ := (C9_calibration_hint_bands 10 0 0).1 h10
  obtain ⟨b1, b2⟩ := (C9_calibration_hint_bands 40 0 0).2.1 h40
  obtain ⟨c1, c2⟩ := (C9_calibration_hint_bands 90 0 0).2.2 h90
  exact ⟨h10, a1, a2, h40, b1, b2, h90, c1, c2⟩

/-- View state touched by the variant-1 sample listener: the displayed
heading, the animated rotation (modelled at its settled target), and the
calibration hint. -/
@[ext]
structure ListenerState where
  heading : ℝ
  rotation : ℝ
  accuracyHint : Option String

/-- The variant-1 sample listener with the animation settled: compute the
heading, retarget the rotation by the shortest delta from the current value,
and refresh the calibration hint. -/
noncomputable def onSampleV1 (s : ListenerState) (x y z : ℝ) : ListenerState :=
  { heading := headingFromMagnetometer x y
    rotation := nextRotationV1 s.rotation (headingFromMagnetometer x y)
    accuracyHint := accuracyHintV1 x y z }

/-- Once the rotation sits at a sample's target, the next delta for the same
heading is zero. -/
theorem shortestDelta_after_update (r h : ℝ) :
    shortestDeltaDegrees (nextRotationV1 r h) h = 0 := by
  unfold nextRotationV1
  exact shortestDelta_eq_zero (clamp_add_shortestDelta r h)

/-- C8: feeding the same sample again is idempotent: the heading is unchanged,
the per-sample update computes a zero delta once the rotation has reached the
first update's target, and the whole listener state is a fixed point. -/
theorem C8_repeat_sample_idempotent (s : ListenerState) (x y z : ℝ) :
    (onSampleV1 (onSampleV1 s x y z) x y z).heading = (onSampleV1 s x y z).heading ∧
    shortestDeltaDegrees ((onSampleV1 s x y z).rotation)
      (headingFromMagnetometer x y) = 0 ∧
    onSampleV1 (onSampleV1 s x y z) x y z = onSampleV1 s x y z := by
  have hzero : shortestDeltaDegrees
      (nextRotationV1 s.rotation (headingFromMagnetometer x y))
      (headingFromMagnetometer x y) = 0 :=
    shortestDelta_after_update s.rotation (headingFromMagnetometer x y)
  refine ⟨rfl, hzero, ?_⟩
  have hrot : nextRotationV1 (nextRotationV1 s.rotation (headingFromMagnetometer x y))
      (headingFromMagnetometer x y) =
      nextRotationV1 s.rotation (headingFromMagnetometer x y) := by
    conv_lhs => rw [nextRotationV1]
    rw [hzero, add_zero]
  ext
  · rfl
  · exact hrot
  · rfl

/-- Lifecycle state of the mounted variant-1 component: mount flag, pending
availability probe, resolved availability, whether a sensor listener is
installed, and the view state the listener mutates. -/
structure CompassState where
  mounted : Bool
  probePending : Bool
  available : Option Bool
  subActive : Bool
  heading : ℝ
  rotation : ℝ
  accuracyHint : Option String

/-- The state right after mount: the probe is in flight, `sub` is null, and
the view state holds its initial values (`available = null`, `heading = 0`,
`accuracyHint = null`, `rotationDeg = 0`). -/
def initState : CompassState :=
  { mounted := true
    probePending := true
    available := none
    subActive := false
    heading := 0
    rotation := 0
    accuracyHint := none }

/-- Events the mounted component can observe: the availability probe
resolving, a magnetometer sample, and unmount. -/
inductive Event where
  | probeResolve : Bool → Event
  | sample : ℝ → ℝ → ℝ → Event
  | unmount : Event

/-- One lifecycle step of the variant-1 component.  The probe continuation
runs whether or not the component is still mounted (there is no cancellation
guard in the source), so a probe that resolves true always installs the
listener; a sample is processed only while a listener is installed; unmount
runs the effect cleanup, which removes the listener currently stored in `sub`
(a no-op when `sub` is still null). -/
noncomputable def step (s : CompassState) : Event → CompassState
  | Event.probeResolve b =>
      if s.probePending then
        { s with probePending := false
                 available := some b
                 subActive := if b then true else s.subActive }
      else s
  | Event.sample x y z =>
      if s.subActive then
        { s with heading := headingFromMagnetometer x y
                 rotation := nextRotationV1 s.rotation (headingFromMagnetometer x y)
                 accuracyHint := accuracyHintV1 x y z }
      else s
  | Event.unmount => { s with mounted := false, subActive := false }

/-- Running the component from a state through a list of events in order. -/
noncomputable def run (s : CompassState) (evs : List Event) : CompassState :=
  evs.foldl step s

/-- Embedding of `cardSubtitle` from the source: the unavailable message wins,
then the web advisory, then the calibration hint, then the default
instruction. -/
def cardSubtitle (available : Option Bool) (accuracyHint : Option String)
    (platformIsWeb : Bool) : String :=
  if available = some false then "Magnetometer unavailable on this device"
  else if platformIsWeb then "Compass works best on a real device"
  else accuracyHint.getD "Align the top edge with your direction"

/-- C2 evidence: unmounting before the availability probe resolves leaves an
orphaned subscription.  After the trace mount, unmount, probe-resolves-true,
the listener is installed while the component is unmounted, and no later
sample or probe event removes it. -/
theorem C2_unmount_race_orphans_subscription :
    (run initState [Event.unmount, Event.probeResolve true]).subActive = true ∧
    (run initState [Event.unmount, Event.probeResolve true]).mounted = false ∧
    (∀ x y z : ℝ,
      (step (run initState [Event.unmount, Event.probeResolve true])
        (Event.sample x y z)).subActive = true) ∧
    (∀ b : Bool,
      (step (run initState [Event.unmount, Event.probeResolve true])
        (Event.probeResolve b)).subActive = true) := by
  refine ⟨rfl, rfl, fun x y z => ?_, fun b => ?_⟩
  · simp [run, step, initState]
  · simp [run, step, initState]

/-- Invariant of a mount whose probe never resolves true: no listener, zeroed
view state, and once the probe is no longer pending the availability is
`some false`. -/
def UnavailInv (s : CompassState) : Prop :=
  s.subActive = false ∧ s.heading = 0 ∧ s.accuracyHint = none ∧ s.rotation = 0 ∧
    (s.probePending = false → s.available = some false)

/-- A step by any event other than a probe resolving true preserves
`UnavailInv`. -/
theorem step_unavailInv {s : CompassState} (hs : UnavailInv s) :
    ∀ e : Event, (∀ b : Bool, e = Event.probeResolve b → b = false) →
      UnavailInv (step s e) := by
  rintro (b | ⟨x, y, z⟩ | _) hb
  · have hbf : b = false := hb b rfl
    subst hbf
    by_cases hp : s.probePending
    · simp only [step, if_pos hp]
      exact ⟨hs.1, hs.2.1, hs.2.2.1, hs.2.2.2.1, fun _ => rfl⟩
    · simp only [step, if_neg hp]
      exact hs
  · have hsub : ¬ (s.subActive = true) := by simp [hs.1]
    simp only [step, if_neg hsub]
    exact hs
  · exact ⟨rfl, hs.2.1, hs.2.2.1, hs.2.2.2.1, fun hp => hs.2.2.2.2 hp⟩

/-- Running any trace without a probe-resolves-true event preserves
`UnavailInv`. -/
theorem run_unavailInv :
    ∀ (evs : List Event) (s : CompassState), UnavailInv s →
      (∀ b : Bool, Event.probeResolve b ∈ evs → b = false) →
      UnavailInv (run s evs) := by
  intro evs
  induction evs with
  | nil => exact fun s hs _ => hs
  | cons e t ih =>
      intro s hs hmem
      have hstep := step_unavailInv hs e
        (fun b hb => hmem b (by rw [hb] at *; exact List.mem_cons_self _ _))
      exact ih (step s e)
        (hstep)
        (fun b hb => hmem b (List.mem_cons_of_mem _ hb))

/-- Once the probe is no longer pending it never becomes pending again. -/
theorem run_probePending_mono :
    ∀ (evs : List Event) (s : CompassState), s.probePending = false →
      (run s evs).probePending = false := by
  intro evs
  induction evs with
  | nil => exact fun s hs => hs
  | cons e t ih =>
      intro s hs
      refine ih (step s e) ?_
      cases e with
      | probeResolve b => simp only [step, hs]; simp [hs]
      | sample x y z =>
          by_cases hsub : s.subActive = true
          · simp only [step, if_pos hsub]
            exact hs
          · simp only [step, if_neg hsub]
            exact hs
      | unmount => exact hs

/-- After a trace containing a probe resolution, the probe is no longer
pending. -/
theorem run_probe_in_trace :
    ∀ (evs : List Event) (s : CompassState) (b : Bool),
      Event.probeResolve b ∈ evs → (run s evs).probePending = false := by
  intro evs
  induction evs with
  | nil => intro s b hb; cases hb
  | cons e t ih =>
      intro s b hb
      rcases List.mem_cons.1 hb with he | ht
      · subst he
        refine run_probePending_mono t _ ?_
        by_cases hp : s.probePending
        · simp [step, hp]
        · simp [step, hp]
      · exact ih (step s e) b ht

/-- C10: if the availability probe resolves false, then for the rest of the
mount no listener is installed, the heading stays 0, the hint stays null, the
rotation stays 0, and the screen shows heading 0 degrees, cardinal N, and the
unavailable status message. -/
theorem C10_unavailable_state_frozen (evs : List Event) (p : Bool)
    (h1 : ∀ b : Bool, Event.probeResolve b ∈ evs → b = false)
    (h2 : Event.probeResolve false ∈ evs) :
    (run initState evs).subActive = false ∧
    (run initState evs).heading = 0 ∧
    (run initState evs).accuracyHint = none ∧
    (run initState evs).rotation = 0 ∧
    (run initState evs).available = some false ∧
    cardSubtitle (run initState evs).available (run initState evs).accuracyHint p =
      "Magnetometer unavailable on this device" ∧
    round (run initState evs).heading = 0 ∧
    cardinalFromHeading (run initState evs).heading = "N" := by
  have hinv : UnavailInv (run initState evs) :=
    run_unavailInv evs initState
      ⟨rfl, rfl, rfl, rfl, fun hc => by simp [initState] at hc⟩ h1
  have hpend : (run initState evs).probePending = false :=
    run_probe_in_trace evs initState false h2
  have havail : (run initState evs).available = some false := hinv.2.2.2.2 hpend
  refine ⟨hinv.1, hinv.2.1, hinv.2.2.1, hinv.2.2.2.1, havail, ?_, ?_, ?_⟩
  · rw [cardSubtitle, if_pos (by rw [havail])]
  · rw [hinv.2.1]
    exact round_zero
  · rw [hinv.2.1]
    exact cardinal_N_of_band 0 (by norm_num) (by norm_num)

/-- C10 witness: the concrete trace probe-resolves-false then unmount
satisfies the hypotheses, and freezes the zeroed display state. -/
theorem C10_unavailable_state_frozen_witness :
    (∀ b : Bool,
      Event.probeResolve b ∈ [Event.probeResolve false, Event.unmount] →
        b = false) ∧
    Event.probeResolve false ∈ [Event.probeResolve false, Event.unmount] ∧
    ((run initState [Event.probeResolve false, Event.unmount]).subActive = false ∧
     (run initState [Event.probeResolve false, Event.unmount]).heading = 0 ∧
     (run initState [Event.probeResolve false, Event.unmount]).accuracyHint = none ∧
     (run initState [Event.probeResolve false, Event.unmount]).rotation = 0 ∧
     (run initState [Event.probeResolve false, Event.unmount]).available = some false ∧
     cardSubtitle (run initState [Event.probeResolve false, Event.unmount]).available
       (run initState [Event.probeResolve false, Event.unmount]).accuracyHint false =
       "Magnetometer unavailable on this device" ∧
     round (run initState [Event.probeResolve false, Event.unmount]).heading = 0 ∧
     cardinalFromHeading
       (run initState [Event.probeResolve false, Event.unmount]).heading = "N") := by
  have h1 : ∀ b : Bool,
      Event.probeResolve b ∈ [Event.probeResolve false, Event.unmount] → b = false := by
    intro b hb
    rcases List.mem_cons.1 hb with he | ht
    · cases he
      rfl
    · rcases List.mem_cons.1 ht with he' | ht'
      · cases he'
      · cases ht'
  have h2 : Event.probeResolve false ∈ [Event.probeResolve false, Event.unmount] :=
    List.mem_cons_self _ _
  exact ⟨h1, h2, C10_unavailable_state_frozen _ false h1 h2⟩

end Compass
